import Mathlib

/-!
# pomodoro-cli: the session state machine of `main.go`

A shallow embedding of the timer logic of `main.go` (the Bubble Tea `model`,
its `Update` function and the helpers it calls) together with the parts of the
Go standard library that `parseDurationInput` relies on.

Conventions.
* `int` is 64 bits wide, and `time.Duration` is an `int64` count of
  nanoseconds.  Both are embedded as `Int`, and every operation of the program
  that can leave the 64-bit range wraps with `wrap64`, as Go does: the
  increments `timerID++`, `currentSession++`, `focusIndex++`, `focusIndex--`,
  the product `time.Duration(n) * time.Minute` and the sum
  `timeLeft += time.Minute`.  The subtractions from `timeLeft` are guarded in
  the source and cannot leave the range.
* Rendering (`View`), sounds and desktop notifications do not influence the
  value returned by `Update`; they are left out.
-/

namespace Pomodoro

/-! ## Durations -/

/-- The constant `time.Second`, in nanoseconds. -/
def Second : Int := 1000000000

/-- The constant `time.Minute`, in nanoseconds. -/
def Minute : Int := 60000000000

/-- Two's complement wrap-around of a 64-bit signed integer. -/
def wrap64 (x : Int) : Int :=
  (x + 9223372036854775808) % 18446744073709551616 - 9223372036854775808

/-- The Go expression `time.Duration(n) * time.Minute`. -/
def minutes (n : Int) : Int := wrap64 (n * Minute)

/-! ## Go standard library: `strings.TrimSpace`, `strconv.Atoi`,
`time.ParseDuration`, `strings.Contains`, `%d` -/

/-- White space as `unicode.IsSpace` defines it. -/
def isSpace (c : Char) : Bool :=
  let n := c.toNat
  n = 9 || n = 10 || n = 11 || n = 12 || n = 13 || n = 32 || n = 133 || n = 160 ||
  n = 5760 || (8192 ≤ n && n ≤ 8202) || n = 8232 || n = 8233 || n = 8239 ||
  n = 8287 || n = 12288

def trimLeft (cs : List Char) : List Char := cs.dropWhile isSpace

def trimChars (cs : List Char) : List Char :=
  (trimLeft (trimLeft cs).reverse).reverse

/-- The function `strings.TrimSpace`. -/
def TrimSpace (s : String) : String := ⟨trimChars s.data⟩

def isDigit (c : Char) : Bool := 48 ≤ c.toNat && c.toNat ≤ 57

def digitVal (c : Char) : Nat := c.toNat - 48

/-- Value of a run of decimal digits. -/
def decimalValue (ds : List Char) : Nat :=
  ds.foldl (fun a c => 10 * a + digitVal c) 0

/-- Splits an optional leading sign off: `(negative, rest)`. -/
def splitSign (cs : List Char) : Bool × List Char :=
  match cs with
  | '-' :: r => (true, r)
  | '+' :: r => (false, r)
  | _ => (false, cs)

/-- Outcome of `strconv.ParseUint`: a value, `ErrSyntax` or `ErrRange`. -/
inductive UintResult
  | ok (n : Nat)
  | syntaxError
  | rangeError
  deriving DecidableEq

/-- The digit loop of `strconv.ParseUint` in base 10 for 64 bits, with the
accumulator `n`: each character is checked to be a digit before the overflow
tests, and the first failure ends the loop. -/
def parseUintLoop : List Char → Nat → UintResult
  | [], n => UintResult.ok n
  | c :: cs, n =>
    if ¬ isDigit c = true then UintResult.syntaxError
    else if 1844674407370955162 ≤ n then UintResult.rangeError
    else if 18446744073709551615 < n * 10 + digitVal c then UintResult.rangeError
    else parseUintLoop cs (n * 10 + digitVal c)

/-- The function `strconv.Atoi` on a 64-bit platform: the value and whether
the error is `nil`.  A syntax error gives `0`; a value out of range gives the
nearest bound of `int64`, with an error. -/
def Atoi (s : String) : Int × Bool :=
  let p := splitSign s.data
  if p.2 = [] then (0, false)
  else
    match parseUintLoop p.2 0 with
    | UintResult.syntaxError => (0, false)
    | UintResult.rangeError =>
      if p.1 then (-9223372036854775808, false) else (9223372036854775807, false)
    | UintResult.ok n =>
      if p.1 then
        if 9223372036854775808 < n then (-9223372036854775808, false)
        else (-(n : Int), true)
      else
        if 9223372036854775808 ≤ n then (9223372036854775807, false)
        else ((n : Int), true)

/-- The helper `leadingInt` of package `time`: the leading digits of `s`, read
into the accumulator `x`, and the rest; `none` on overflow. -/
def leadingInt : List Char → Nat → Option (Nat × List Char)
  | [], x => some (x, [])
  | c :: cs, x =>
    if isDigit c then
      if 922337203685477580 < x then none
      else if 9223372036854775808 < x * 10 + digitVal c then none
      else leadingInt cs (x * 10 + digitVal c)
    else some (x, c :: cs)

/-- The helper `leadingFraction` of package `time`: the digits after the
point as a number `x` and the count `k` of digits kept (`scale = 10^k`), and
the rest.  Once `x` would overflow, further digits are skipped. -/
def leadingFraction : List Char → Nat → Nat → Bool → Nat × Nat × List Char
  | [], x, k, _ => (x, k, [])
  | c :: cs, x, k, overflow =>
    if isDigit c then
      if overflow then leadingFraction cs x k true
      else if 922337203685477580 < x then leadingFraction cs x k true
      else if 9223372036854775808 < x * 10 + digitVal c then leadingFraction cs x k true
      else leadingFraction cs (x * 10 + digitVal c) (k + 1) false
    else (x, k, c :: cs)

/-- Rounding of a non-negative rational to the nearest `float64`, ties to
even: 53 bits of mantissa, and the fixed spacing `2^-1074` in the subnormal
range.  Overflow to infinity is dealt with where it can happen
(`fractionNanos`). -/
def roundF64 (q : ℚ) : ℚ :=
  if q ≤ 0 then 0
  else
    let ulp : ℚ := (2 : ℚ) ^ (max (Int.log 2 q - 52) (-1074))
    let t := q / ulp
    let lo : Int := ⌊t⌋
    let r := t - lo
    let m : Int :=
      if r < 1 / 2 then lo
      else if 1 / 2 < r then lo + 1
      else if lo % 2 = 0 then lo else lo + 1
    m * ulp

/-- The `float64` variable `scale` of `leadingFraction` after `k` digits:
it starts at 1 and every digit kept runs `scale *= 10`, rounded each time
(exact up to `10^22`). -/
def scaleF64 : Nat → ℚ
  | 0 => 1
  | k + 1 => roundF64 (scaleF64 k * 10)

/-- The Go expression `uint64(float64(f) * (float64(unit) / scale))` where
`scale` has been multiplied by ten `k` times.  From 309 digits on `scale` is
`+Inf`, the quotient is zero and so is the result. -/
def fractionNanos (f k unit : Nat) : Nat :=
  if 308 < k then 0
  else (⌊roundF64 (roundF64 f * roundF64 ((unit : ℚ) / scaleF64 k))⌋).toNat

/-- The table `unitMap` of package `time`. -/
def unitMap (u : List Char) : Option Nat :=
  if u = ['n', 's'] then some 1
  else if u = ['u', 's'] then some 1000
  else if u = ['µ', 's'] then some 1000
  else if u = ['μ', 's'] then some 1000
  else if u = ['m', 's'] then some 1000000
  else if u = ['s'] then some 1000000000
  else if u = ['m'] then some 60000000000
  else if u = ['h'] then some 3600000000000
  else none

def isNumChar (c : Char) : Bool := c = '.' || isDigit c

/-- The fractional part `(\.[0-9]*)?` of one term: `(f, k, rest, post)`. -/
def fractionPart (s : List Char) : Nat × Nat × List Char × Bool :=
  match s with
  | '.' :: r =>
    let q := leadingFraction r 0 0 false
    (q.1, q.2.1, q.2.2, decide (r.length ≠ q.2.2.length))
  | _ => (0, 0, s, false)

/-- One round of the main loop of `time.ParseDuration` on the text `c :: cs`:
one term `[0-9]*(\.[0-9]*)?[a-z]+` is read and added to the `uint64`
accumulator `d`; the result is the rest of the text and the new accumulator,
`none` stands for the error return. -/
def parseTerm (c : Char) (cs : List Char) (d : Nat) : Option (List Char × Nat) :=
  if ¬ isNumChar c = true then none
  else
    match leadingInt (c :: cs) 0 with
    | none => none
    | some (v, s1) =>
      let pre := decide ((c :: cs).length ≠ s1.length)
      let fr := fractionPart s1
      let f := fr.1
      let k := fr.2.1
      let s2 := fr.2.2.1
      let post := fr.2.2.2
      if pre = false ∧ post = false then none
      else
        let u := s2.takeWhile (fun x => ! isNumChar x)
        let s3 := s2.dropWhile (fun x => ! isNumChar x)
        if u = [] then none
        else
          match unitMap u with
          | none => none
          | some unit =>
            if 9223372036854775808 / unit < v then none
            else
              let v1 := v * unit
              let v2 := if 0 < f then v1 + fractionNanos f k unit else v1
              if 0 < f ∧ 9223372036854775808 < v2 then none
              else
                let d1 := (d + v2) % 18446744073709551616
                if 9223372036854775808 < d1 then none
                else some (s3, d1)

/-- The main loop `for s != ""` of `time.ParseDuration`.  Every round consumes
at least one character, so `fuel = length of the input` is never used up
(`parseLoop_fuel`). -/
def parseLoop : Nat → List Char → Nat → Option Nat
  | _, [], d => some d
  | 0, _ :: _, _ => none
  | fuel + 1, c :: cs, d =>
    match parseTerm c cs d with
    | none => none
    | some (s3, d1) => parseLoop fuel s3 d1

/-- The function `time.ParseDuration`: `none` stands for a non-nil error. -/
def ParseDuration (s : String) : Option Int :=
  let p := splitSign s.data
  if p.2 = ['0'] then some 0
  else if p.2 = [] then none
  else
    match parseLoop p.2.length p.2 0 with
    | none => none
    | some d =>
      if p.1 then some (-(d : Int))
      else if 9223372036854775807 < d then none
      else some (d : Int)

/-- The function `strings.Contains` on lists of characters. -/
def containsChars (s sub : List Char) : Bool :=
  s.tails.any (fun t => sub.isPrefixOf t)

def Contains (s sub : String) : Bool := containsChars s.data sub.data

/-- The verb `%d` of `fmt.Sprintf` for an `int`. -/
def fmtInt (n : Int) : String :=
  match n with
  | Int.ofNat k => Nat.repr k
  | Int.negSucc k => "-" ++ Nat.repr (k + 1)

/-! ## `parseDurationInput` -/

def parseDurationInput (s : String) (defaultMin : Int) : Int :=
  let s := TrimSpace s
  if s = "" then minutes defaultMin
  else
    match ParseDuration s with
    | some d => d
    | none =>
      match Atoi s with
      | (val, true) => minutes val
      | (_, false) => minutes defaultMin

/-! ## The model -/

inductive sessionState
  | stateSetup
  | stateRunning
  | statePopup
  deriving DecidableEq

inductive timerType
  | typeWork
  | typeBreak
  deriving DecidableEq

open sessionState timerType

/-- What the program reads and writes of a `textinput.Model` of the bubbles
library: its text (`Value()`) and its focus (`Focus()`, `Blur()`). -/
structure TextInput where
  value : String
  focus : Bool
  deriving DecidableEq

/-- The struct `model`.  The field `popupCallback` is never assigned nor
called and is left out. -/
structure model where
  width : Int
  height : Int
  state : sessionState
  timerType : timerType
  paused : Bool
  inputs : List TextInput
  focusIndex : Int
  workDuration : Int
  breakDuration : Int
  timeLeft : Int
  sessionsTotal : Int
  currentSession : Int
  timerID : Int
  autobreak : Bool
  popupMessage : String
  deriving DecidableEq

/-- The messages `Update` receives.  `KeyMsg` carries the result of
`msg.String()`; `otherMsg` is any message of another type (the cursor blink
messages of the text inputs, for instance). -/
inductive Msg
  | WindowSizeMsg (Width Height : Int)
  | tickMsg (id : Int)
  | KeyMsg (key : String)
  | otherMsg (tag : Nat)
  deriving DecidableEq

/-- The commands `Update` returns: `nil`, `doTick(id)`, `tea.Quit`, and the
batch of commands handed back by the text inputs (which holds no tick of this
program and no quit). -/
inductive Cmd
  | none
  | doTick (id : Int)
  | Quit
  | inputCmds
  deriving DecidableEq

/-- The method `textinput.Model.Update` of the bubbles library; its code is
not part of the repository and it is kept abstract. -/
abbrev InputUpdate := TextInput → Msg → TextInput

/-- Text of the `i`-th input, `m.inputs[i].Value()`. -/
def inputValue (m : model) (i : Nat) : String :=
  match m.inputs.get? i with
  | some t => t.value
  | Option.none => ""

def newInput (focus : Bool) : TextInput := { value := "", focus := focus }

/-- The session count read by `startTimer` and `initialModel`:
`s, _ := strconv.Atoi(text); if s == 0 { s = 4 }`. -/
def parseSessions (text : String) : Int :=
  if (Atoi text).1 = 0 then 4 else (Atoi text).1

def initialModel (workArg breakArg sessArg : String) : model :=
  let m : model :=
    { width := 0, height := 0, state := stateSetup, timerType := typeWork,
      paused := false,
      inputs := [newInput true, newInput false, newInput false],
      focusIndex := 0, workDuration := 0, breakDuration := 0, timeLeft := 0,
      sessionsTotal := 0, currentSession := 0, timerID := 0, autobreak := true,
      popupMessage := "" }
  if workArg ≠ "" then
    { m with
      state := stateRunning, timerType := typeWork, paused := false,
      currentSession := 1,
      workDuration := parseDurationInput workArg 25,
      breakDuration := parseDurationInput breakArg 5,
      sessionsTotal := parseSessions sessArg,
      timeLeft := parseDurationInput workArg 25,
      timerID := wrap64 (m.timerID + 1) }
  else
    { m with state := stateSetup, timerType := typeWork }

/-- The method `Init`: the batch of commands issued at start-up. -/
def Init (m : model) : List Cmd :=
  if m.state = stateRunning then [Cmd.inputCmds, Cmd.doTick m.timerID]
  else [Cmd.inputCmds]

def startTimer (m : model) : model × Cmd :=
  let m1 : model :=
    { m with
      workDuration := parseDurationInput (inputValue m 0) 25,
      breakDuration := parseDurationInput (inputValue m 1) 5,
      sessionsTotal := parseSessions (inputValue m 2),
      currentSession := 1,
      state := stateRunning,
      timerType := typeWork,
      timeLeft := parseDurationInput (inputValue m 0) 25,
      paused := false,
      timerID := wrap64 (m.timerID + 1) }
  (m1, Cmd.doTick m1.timerID)

def resetToSetup (m : model) : model × Cmd :=
  ({ m with
     state := stateSetup, timerType := typeWork, paused := false,
     currentSession := 0, timeLeft := 0, timerID := wrap64 (m.timerID + 1) }, Cmd.none)

def handleTimerFinishAuto (m : model) : model × Cmd :=
  let m1 : model := { m with timerID := wrap64 (m.timerID + 1) }
  let m2 : model :=
    if m1.timerType = typeWork then
      { m1 with timerType := typeBreak, timeLeft := m1.breakDuration }
    else
      { m1 with timerType := typeWork, timeLeft := m1.workDuration,
                currentSession := wrap64 (m1.currentSession + 1) }
  if m2.currentSession > m2.sessionsTotal then (m2, Cmd.Quit)
  else ({ m2 with paused := false }, Cmd.doTick m2.timerID)

def handleTimerFinishManual (m : model) : model × Cmd :=
  let m1 : model := { m with state := statePopup, timerID := wrap64 (m.timerID + 1) }
  if m1.timerType = typeWork then
    ({ m1 with popupMessage :=
        "Work session " ++ fmtInt m1.currentSession ++ "/" ++ fmtInt m1.sessionsTotal
          ++ " finished!\nStart the break?" }, Cmd.none)
  else
    ({ m1 with popupMessage :=
        "Break finished!\nStart work session " ++ fmtInt (wrap64 (m1.currentSession + 1)) ++ "/"
          ++ fmtInt m1.sessionsTotal ++ "?" }, Cmd.none)

def handleTimerFinish (m : model) : model × Cmd :=
  if m.autobreak then handleTimerFinishAuto m else handleTimerFinishManual m

def updateInputs (U : InputUpdate) (m : model) (msg : Msg) : model × Cmd :=
  ({ m with inputs := m.inputs.map (fun t => U t msg) }, Cmd.inputCmds)

/-- The block `if m.state == stateSetup { switch msg.String() ... }` of
`Update`; `none` when the block does not return (it then leaves `m` as it
is). -/
def setupKey (m : model) (s : String) : Option (model × Cmd) :=
  if m.state = stateSetup then
    if s = "a" ∨ s = "A" then
      some ({ m with autobreak := ! m.autobreak }, Cmd.none)
    else if s = "tab" ∨ s = "shift+tab" ∨ s = "enter" ∨ s = "up" ∨ s = "down" then
      if s = "enter" ∧ m.focusIndex = (m.inputs.length : Int) - 1 then
        some (startTimer m)
      else
        let f1 : Int :=
          if s = "up" ∨ s = "shift+tab" then wrap64 (m.focusIndex - 1)
          else wrap64 (m.focusIndex + 1)
        let f2 : Int :=
          if f1 > (m.inputs.length : Int) - 1 then 0
          else if f1 < 0 then (m.inputs.length : Int) - 1
          else f1
        some ({ m with
                focusIndex := f2,
                inputs := m.inputs.enum.map
                  (fun p => { p.2 with focus := decide ((p.1 : Int) = f2) }) },
              Cmd.inputCmds)
    else Option.none
  else Option.none

/-- The block `if m.state == stateRunning { switch msg.String() ... }` of
`Update`: either the value it returns, or the model it goes on with. -/
def runningKey (m : model) (s : String) : (model × Cmd) ⊕ model :=
  if m.state = stateRunning then
    if s = " " then
      let m1 : model := { m with paused := ! m.paused }
      if m1.paused = false then Sum.inl (m1, Cmd.doTick m1.timerID)
      else Sum.inr m1
    else if s = "s" then Sum.inl (handleTimerFinish m)
    else if s = "up" then Sum.inr { m with timeLeft := wrap64 (m.timeLeft + Minute) }
    else if s = "down" then
      if m.timeLeft > Minute then Sum.inr { m with timeLeft := m.timeLeft - Minute }
      else Sum.inr m
    else if s = "esc" then Sum.inl (resetToSetup m)
    else Sum.inr m
  else Sum.inr m

/-- The block `if m.state == statePopup { switch msg.String() ... }` of
`Update`; `none` when the block does not return.  (Its case `"q"` is never
reached: `"q"` returns at the top of the key handling.) -/
def popupKey (m : model) (s : String) : Option (model × Cmd) :=
  if m.state = statePopup then
    if s = "y" ∨ s = "Y" then
      if Contains m.popupMessage "Work session" then
        let m1 : model :=
          { m with timerType := typeBreak, timeLeft := m.breakDuration,
                   paused := false, state := stateRunning }
        some (m1, Cmd.doTick m1.timerID)
      else
        let m1 : model :=
          { m with timerType := typeWork, timeLeft := m.workDuration,
                   currentSession := wrap64 (m.currentSession + 1),
                   paused := false, state := stateRunning }
        if m1.currentSession > m1.sessionsTotal then some (m1, Cmd.Quit)
        else some (m1, Cmd.doTick m1.timerID)
    else if s = "n" ∨ s = "N" then
      some ({ m with state := stateRunning }, Cmd.none)
    else if s = "q" then some (m, Cmd.Quit)
    else Option.none
  else Option.none

/-- The end of `Update`, after the `switch` on the message type. -/
def updateTail (U : InputUpdate) (m : model) (msg : Msg) : model × Cmd :=
  if m.state = stateSetup then updateInputs U m msg else (m, Cmd.none)

def Update (U : InputUpdate) (m : model) (msg : Msg) : model × Cmd :=
  match msg with
  | Msg.WindowSizeMsg w h => ({ m with width := w, height := h }, Cmd.none)
  | Msg.tickMsg id =>
    if id ≠ m.timerID then (m, Cmd.none)
    else if m.state = stateRunning ∧ m.paused = false ∧ m.timeLeft > 0 then
      let m1 : model := { m with timeLeft := m.timeLeft - Second }
      if m1.timeLeft ≤ 0 then handleTimerFinish m1
      else (m1, Cmd.doTick m1.timerID)
    else (m, Cmd.none)
  | Msg.KeyMsg s =>
    if s = "ctrl+c" ∨ s = "q" then (m, Cmd.Quit)
    else
      match setupKey m s with
      | some r => r
      | Option.none =>
        match runningKey m s with
        | Sum.inl r => r
        | Sum.inr m1 =>
          match popupKey m1 s with
          | some r => r
          | Option.none => updateTail U m1 (Msg.KeyMsg s)
  | Msg.otherMsg tag => updateTail U m (Msg.otherMsg tag)

/-! ## The transition table

Every value `Update` can return, as a relation: one constructor per row of
the state machine.  `Update_trans` below shows that `Update` only ever takes
one of these transitions. -/

inductive Trans (m : model) : Msg → model × Cmd → Prop
  | resize (w h : Int) :
      Trans m (Msg.WindowSizeMsg w h) ({ m with width := w, height := h }, Cmd.none)
  | tickStale (id : Int) (h : id ≠ m.timerID) : Trans m (Msg.tickMsg id) (m, Cmd.none)
  | tickIdle (h : ¬ (m.state = stateRunning ∧ m.paused = false ∧ m.timeLeft > 0)) :
      Trans m (Msg.tickMsg m.timerID) (m, Cmd.none)
  | tickDec (hs : m.state = stateRunning) (hp : m.paused = false) (ht : Second < m.timeLeft) :
      Trans m (Msg.tickMsg m.timerID)
        ({ m with timeLeft := m.timeLeft - Second }, Cmd.doTick m.timerID)
  | tickFinish (hs : m.state = stateRunning) (hp : m.paused = false) (h0 : 0 < m.timeLeft)
      (h1 : m.timeLeft ≤ Second) :
      Trans m (Msg.tickMsg m.timerID)
        (handleTimerFinish { m with timeLeft := m.timeLeft - Second })
  | quitKey (s : String) : Trans m (Msg.KeyMsg s) (m, Cmd.Quit)
  | toggleAuto (s : String) (hs : m.state = stateSetup) :
      Trans m (Msg.KeyMsg s) ({ m with autobreak := ! m.autobreak }, Cmd.none)
  | start (hs : m.state = stateSetup) (hf : m.focusIndex = (m.inputs.length : Int) - 1) :
      Trans m (Msg.KeyMsg "enter") (startTimer m)
  | edit (msg : Msg) (hs : m.state = stateSetup) (fi : Int) (ins : List TextInput) :
      Trans m msg ({ m with focusIndex := fi, inputs := ins }, Cmd.inputCmds)
  | pause (s : String) (hs : m.state = stateRunning) (hp : m.paused = false) :
      Trans m (Msg.KeyMsg s) ({ m with paused := true }, Cmd.none)
  | resume (s : String) (hs : m.state = stateRunning) (hp : m.paused = true) :
      Trans m (Msg.KeyMsg s) ({ m with paused := false }, Cmd.doTick m.timerID)
  | skip (s : String) (hs : m.state = stateRunning) :
      Trans m (Msg.KeyMsg s) (handleTimerFinish m)
  | plus (hs : m.state = stateRunning) :
      Trans m (Msg.KeyMsg "up") ({ m with timeLeft := wrap64 (m.timeLeft + Minute) }, Cmd.none)
  | minus (s : String) (hs : m.state = stateRunning) (ht : Minute < m.timeLeft) :
      Trans m (Msg.KeyMsg s) ({ m with timeLeft := m.timeLeft - Minute }, Cmd.none)
  | reset (s : String) (hs : m.state = stateRunning) :
      Trans m (Msg.KeyMsg s) (resetToSetup m)
  | nop (msg : Msg) : Trans m msg (m, Cmd.none)
  | yesBreak (s : String) (hs : m.state = statePopup)
      (hc : Contains m.popupMessage "Work session" = true) :
      Trans m (Msg.KeyMsg s)
        ({ m with timerType := typeBreak, timeLeft := m.breakDuration, paused := false,
                  state := stateRunning }, Cmd.doTick m.timerID)
  | yesWorkQuit (s : String) (hs : m.state = statePopup)
      (hc : Contains m.popupMessage "Work session" = false)
      (hq : wrap64 (m.currentSession + 1) > m.sessionsTotal) :
      Trans m (Msg.KeyMsg s)
        ({ m with timerType := typeWork, timeLeft := m.workDuration,
                  currentSession := wrap64 (m.currentSession + 1), paused := false,
                  state := stateRunning }, Cmd.Quit)
  | yesWork (s : String) (hs : m.state = statePopup)
      (hc : Contains m.popupMessage "Work session" = false)
      (hq : ¬ wrap64 (m.currentSession + 1) > m.sessionsTotal) :
      Trans m (Msg.KeyMsg s)
        ({ m with timerType := typeWork, timeLeft := m.workDuration,
                  currentSession := wrap64 (m.currentSession + 1), paused := false,
                  state := stateRunning }, Cmd.doTick m.timerID)
  | no (s : String) (hs : m.state = statePopup) :
      Trans m (Msg.KeyMsg s) ({ m with state := stateRunning }, Cmd.none)

/-! ## Runs of the program -/

/-- The model after a sequence of messages. -/
def run (U : InputUpdate) (m : model) (msgs : List Msg) : model :=
  msgs.foldl (fun a msg => (Update U a msg).1) m

/-- The models of a live program: it starts from `initialModel` on arguments
allowed by `I`, and handles messages allowed by `P` for as long as `Update`
has not returned `tea.Quit`. -/
inductive ReachableVia (U : InputUpdate) (I : String → String → String → Prop)
    (P : model → Msg → Prop) : model → Prop
  | init (w b s : String) (h : I w b s) : ReachableVia U I P (initialModel w b s)
  | step {m : model} (msg : Msg) (hm : ReachableVia U I P m) (hp : P m msg)
      (hq : (Update U m msg).2 ≠ Cmd.Quit) : ReachableVia U I P (Update U m msg).1

/-- The models reachable from `initialModel` by any messages. -/
def Reachable (U : InputUpdate) (m : model) : Prop :=
  ReachableVia U (fun _ _ _ => True) (fun _ _ => True) m

/-- The largest value of an `int64`. -/
def maxInt64 : Int := 9223372036854775807

/-- Command-line arguments whose durations are not negative. -/
def durationArgs (w b _s : String) : Prop :=
  w ≠ "" → 0 ≤ parseDurationInput w 25 ∧ 0 ≤ parseDurationInput b 5

/-- A message that starts the timer ("enter" on the last input of the setup
screen) finds work and break texts for durations that are not negative and,
when manual confirmation is chosen, are whole seconds; and a message that adds
a minute to a running timer does not overflow. -/
def durationStep (m : model) (msg : Msg) : Prop :=
  (msg = Msg.KeyMsg "enter" → m.state = stateSetup →
      m.focusIndex = (m.inputs.length : Int) - 1 →
      0 ≤ parseDurationInput (inputValue m 0) 25 ∧
      0 ≤ parseDurationInput (inputValue m 1) 5 ∧
      (m.autobreak = false →
        parseDurationInput (inputValue m 0) 25 % Second = 0 ∧
        parseDurationInput (inputValue m 1) 5 % Second = 0)) ∧
  (msg = Msg.KeyMsg "up" → m.state = stateRunning → m.timeLeft + Minute ≤ maxInt64)

/-- Command-line arguments whose session count is not negative. -/
def sessionArgs (_w _b s : String) : Prop := 0 ≤ (Atoi s).1

/-- A message that starts the timer finds a session count that is not
negative in the sessions input. -/
def sessionStep (m : model) (msg : Msg) : Prop :=
  msg = Msg.KeyMsg "enter" → m.state = stateSetup → 0 ≤ (Atoi (inputValue m 2)).1

/-! ## The event loop -/

/-- A configuration of the event loop: the model and the ids of the ticks
that were scheduled by `doTick` and have not fired yet. -/
structure Config where
  m : model
  pending : Multiset Int
  quit : Bool

/-- Running a command: `doTick id` adds a pending tick. -/
def schedule (c : Cmd) (pending : Multiset Int) : Multiset Int :=
  match c with
  | Cmd.doTick id => id ::ₘ pending
  | _ => pending

/-- Start of the program: the model and the commands of `Init`. -/
def boot (workArg breakArg sessArg : String) : Config :=
  { m := initialModel workArg breakArg sessArg,
    pending := (Init (initialModel workArg breakArg sessArg)).foldr schedule 0,
    quit := false }

/-- Delivery of a message to `Update` and execution of the command. -/
def deliver (U : InputUpdate) (c : Config) (msg : Msg) : Config :=
  { m := (Update U c.m msg).1,
    pending := schedule (Update U c.m msg).2 c.pending,
    quit := c.quit || decide ((Update U c.m msg).2 = Cmd.Quit) }

/-- A pending tick fires: it leaves the pending ticks and is delivered. -/
def fire (U : InputUpdate) (c : Config) (id : Int) : Config :=
  if id ∈ c.pending then
    deliver U { c with pending := c.pending.erase id } (Msg.tickMsg id)
  else c

/-- Number of pending ticks that carry the current `timerID`. -/
def liveTicks (c : Config) : Nat := c.pending.count c.m.timerID

/-! ## Words of the specification -/

/-- A plain decimal integer: an optional sign and at least one digit. -/
def IsDecimalInt (t : String) (n : Int) : Prop :=
  ∃ ds : List Char, ds ≠ [] ∧ (∀ c ∈ ds, isDigit c = true) ∧
    ((t.data = ds ∧ n = decimalValue ds) ∨
     (t.data = '+' :: ds ∧ n = decimalValue ds) ∨
     (t.data = '-' :: ds ∧ n = -(decimalValue ds : Int)))

/-- A unit-suffixed duration of one term: at least one digit, then a unit of
`unitMap`; its value is the number times the unit, in nanoseconds. -/
def IsUnitLiteral (t : String) (v : Int) : Prop :=
  ∃ (ds u : List Char) (unit : Nat), ds ≠ [] ∧ (∀ c ∈ ds, isDigit c = true) ∧
    unitMap u = some unit ∧ t.data = ds ++ u ∧ v = (decimalValue ds * unit : Nat)

/-- The three durations of the model are not negative, and they are whole
seconds once the timer has been started with manual confirmation. -/
def DurationsOk (m : model) : Prop :=
  0 ≤ m.timeLeft ∧ 0 ≤ m.workDuration ∧ 0 ≤ m.breakDuration ∧
  (m.state ≠ stateSetup → m.autobreak = false →
    m.timeLeft % Second = 0 ∧ m.workDuration % Second = 0 ∧ m.breakDuration % Second = 0)

/-- The number of sessions is not negative and the session counter does not
exceed it. -/
def SessionsOk (m : model) : Prop :=
  0 ≤ m.sessionsTotal ∧ m.currentSession ≤ m.sessionsTotal

/-- The fields of the model that the transition out of a finished phase
decides. -/
def phaseView (m : model) : timerType × Int × Int × Int × sessionState :=
  (m.timerType, m.timeLeft, m.currentSession, m.timerID, m.state)

/-! ## Sample inputs -/

/-- A text input that ignores every message. -/
def frozenInput : InputUpdate := fun t _ => t

/-- Quick start `pomo 25`. -/
def sample25 : model := initialModel "25" "" ""

/-- Quick start `pomo 0`: a work phase of no time. -/
def sampleZero : model := initialModel "0" "" ""

/-- Quick start `pomo 90s`. -/
def sample90s : model := initialModel "90s" "" ""

/-- Quick start `pomo 25 5 -2`. -/
def sampleNegSessions : model := initialModel "25" "5" "-2"

/-- A work phase with one second left and manual confirmation. -/
def sampleLastSecond : model := { initialModel "1s" "" "" with autobreak := false }

/-- The model of `pomo 25` with the last value of an `int` as timer id. -/
def sampleLastID : model := { initialModel "25" "" "" with timerID := 9223372036854775807 }

/-- Quick start `pomo 1500ms`. -/
def sample1500ms : model := initialModel "1500ms" "" ""

/-- Quick start `pomo 1s`. -/
def sampleOneSecond : model := initialModel "1s" "" ""

/-- A work phase of one second and a half with manual confirmation. -/
def sampleHalfSecond : model := { initialModel "1500ms" "" "" with autobreak := false }

/-! ## `Update` follows the transition table -/

theorem setupKey_trans (m : model) (s : String) (r : model × Cmd)
    (h : setupKey m s = some r) : Trans m (Msg.KeyMsg s) r := by
  simp only [setupKey] at h
  split_ifs at h with hs h1 h2 h3
  · cases h; exact Trans.toggleAuto s hs
  · cases h; obtain ⟨h3, hf⟩ := h3; subst h3; exact Trans.start hs hf
  all_goals (cases h; exact Trans.edit _ hs _ _)

theorem runningKey_inl (m : model) (s : String) (r : model × Cmd)
    (h : runningKey m s = Sum.inl r) : Trans m (Msg.KeyMsg s) r := by
  simp only [runningKey] at h
  split_ifs at h with hs h1 h2 h3 h4 h5 h6 h7
  · cases h
    have hp : m.paused = true := by simpa using h2
    simpa [hp] using Trans.resume s hs hp
  · cases h; exact Trans.skip s hs
  · cases h; exact Trans.reset s hs

theorem runningKey_inr (m : model) (s : String) (m1 : model)
    (h : runningKey m s = Sum.inr m1) :
    m1 = m ∨ (m1.state = stateRunning ∧ Trans m (Msg.KeyMsg s) (m1, Cmd.none)) := by
  simp only [runningKey] at h
  split_ifs at h with hs h1 h2 h3 h4 h5 h6 h7
  · cases h
    have hp : m.paused = false := by simpa using h2
    refine Or.inr ⟨hs, ?_⟩
    simpa [hp] using Trans.pause s hs hp
  · cases h; subst h4; exact Or.inr ⟨hs, Trans.plus hs⟩
  · cases h; exact Or.inr ⟨hs, Trans.minus s hs h6⟩
  all_goals (cases h; exact Or.inl rfl)

theorem popupKey_trans (m : model) (s : String) (r : model × Cmd)
    (h : popupKey m s = some r) : Trans m (Msg.KeyMsg s) r := by
  simp only [popupKey] at h
  split_ifs at h with hs h1 h2 h3 h4 h5
  · cases h; exact Trans.yesBreak s hs h2
  · cases h; exact Trans.yesWorkQuit s hs (by simpa using h2) h3
  · cases h; exact Trans.yesWork s hs (by simpa using h2) h3
  · cases h; exact Trans.no s hs
  · cases h; exact Trans.quitKey s

theorem updateTail_trans (U : InputUpdate) (m : model) (msg : Msg) :
    Trans m msg (updateTail U m msg) := by
  simp only [updateTail, updateInputs]
  split_ifs with hs
  · exact Trans.edit msg hs m.focusIndex _
  · exact Trans.nop msg

theorem Update_trans (U : InputUpdate) (m : model) (msg : Msg) :
    Trans m msg (Update U m msg) := by
  cases msg with
  | WindowSizeMsg w h => exact Trans.resize w h
  | tickMsg id =>
    simp only [Update]
    split_ifs with h1 h2 h3
    · exact Trans.tickStale id h1
    · have h1 : id = m.timerID := by simpa using h1
      subst h1
      exact Trans.tickFinish h2.1 h2.2.1 h2.2.2 (by simpa using h3)
    · have h1 : id = m.timerID := by simpa using h1
      subst h1
      exact Trans.tickDec h2.1 h2.2.1 (by simpa using h3)
    · have h1 : id = m.timerID := by simpa using h1
      subst h1
      exact Trans.tickIdle h2
  | KeyMsg s =>
    simp only [Update]
    split_ifs with hq
    · exact Trans.quitKey s
    · cases hS : setupKey m s with
      | some r => exact setupKey_trans m s r hS
      | none =>
        cases hR : runningKey m s with
        | inl r => exact runningKey_inl m s r hR
        | inr m1 =>
          rcases runningKey_inr m s m1 hR with h1 | ⟨h1, h2⟩
          · subst h1
            cases hP : popupKey m1 s with
            | some r => simp only [hP]; exact popupKey_trans m1 s r hP
            | none => simp only [hP]; exact updateTail_trans U m1 _
          · have hP : popupKey m1 s = Option.none := by simp [popupKey, h1]
            have hT : updateTail U m1 (Msg.KeyMsg s) = (m1, Cmd.none) := by
              simp [updateTail, h1]
            simpa [hP, hT] using h2
  | otherMsg t => exact updateTail_trans U m _


/-! ## C1: stale ticks -/

/-- Claim C1: a tick whose id differs from `timerID` leaves the model unchanged, in
every field, whatever its state, and returns no command. -/
theorem stale_tick_noop (U : InputUpdate) (m : model) (id : Int) (h : id ≠ m.timerID) :
    Update U m (Msg.tickMsg id) = (m, Cmd.none) := by
  simp [Update, h]

/-- Claim C1 at a sample input: a tick with id 7 on the model of `pomo 25`, whose
`timerID` is 1. -/
theorem stale_tick_noop_witness :
    (7 : Int) ≠ sample25.timerID ∧
      Update frozenInput sample25 (Msg.tickMsg 7) = (sample25, Cmd.none) :=
  ⟨by decide, stale_tick_noop frozenInput sample25 7 (by decide)⟩

/-! ## C2: live ticks -/

/-- Claim C2 fails on the code: after `pomo 25` one tick with the current id is
pending; pausing and resuming at once (two presses of the space bar) brings the
model back to where it was and schedules a second tick with the same id, so two
live ticks are pending.  Both are honoured when they fire: two seconds are
taken off `timeLeft` and two live ticks are pending again. -/
theorem pause_resume_doubles_ticks (U : InputUpdate) :
    liveTicks (boot "25" "" "") = 1 ∧
    (deliver U (deliver U (boot "25" "" "") (Msg.KeyMsg " ")) (Msg.KeyMsg " ")).m
      = (boot "25" "" "").m ∧
    liveTicks (deliver U (deliver U (boot "25" "" "") (Msg.KeyMsg " ")) (Msg.KeyMsg " ")) = 2 ∧
    (fire U (fire U (deliver U (deliver U (boot "25" "" "") (Msg.KeyMsg " "))
        (Msg.KeyMsg " ")) 1) 1).m.timeLeft = (boot "25" "" "").m.timeLeft - 2 * Second ∧
    liveTicks (fire U (fire U (deliver U (deliver U (boot "25" "" "") (Msg.KeyMsg " "))
        (Msg.KeyMsg " ")) 1) 1) = 2 := by
  refine ⟨rfl, rfl, rfl, rfl, rfl⟩

/-! ## C3: the timer id -/

theorem wrap64_succ_ge (x : Int) (h : x < 9223372036854775807) : x ≤ wrap64 (x + 1) := by
  unfold wrap64; omega

theorem Trans_timerID {m : model} {msg : Msg} {r : model × Cmd} (h : Trans m msg r)
    (hb : m.timerID < maxInt64) : m.timerID ≤ r.1.timerID := by
  have hw := wrap64_succ_ge m.timerID hb
  cases h <;>
    simp only [startTimer, resetToSetup, handleTimerFinish, handleTimerFinishAuto,
      handleTimerFinishManual] <;>
    (try split_ifs) <;> first | exact le_refl _ | exact hw

/-- Claim C3 as stated fails at the last value of an `int`: "esc" on a running
model with `timerID = 2^63 - 1` runs `m.timerID++`, which wraps around to
`-2^63`. -/
theorem timerID_wraps :
    sampleLastID.state = stateRunning ∧ sampleLastID.timerID = 9223372036854775807 ∧
    (∀ U : InputUpdate,
      (Update U sampleLastID (Msg.KeyMsg "esc")).1.timerID = -9223372036854775808) ∧
    ¬ (∀ (U : InputUpdate) (m : model) (msg : Msg), m.timerID ≤ (Update U m msg).1.timerID) := by
  refine ⟨by decide, by decide, fun U => rfl, fun h => ?_⟩
  exact absurd (h frozenInput sampleLastID (Msg.KeyMsg "esc")) (by decide)

/-- Claim C3, amended: below the last value of an `int`, `Update` never lowers
`timerID`, for any message; hence `timerID` is non-decreasing along every
sequence of messages during which it stays below that value. -/
theorem timerID_monotone (U : InputUpdate) (m : model) :
    (∀ msg : Msg, m.timerID < maxInt64 → m.timerID ≤ (Update U m msg).1.timerID) ∧
      (∀ msgs : List Msg,
        (∀ k : Nat, k < msgs.length → (run U m (msgs.take k)).timerID < maxInt64) →
        m.timerID ≤ (run U m msgs).timerID) := by
  have h1 : ∀ (a : model) (msg : Msg), a.timerID < maxInt64 →
      a.timerID ≤ (Update U a msg).1.timerID :=
    fun a msg hb => Trans_timerID (Update_trans U a msg) hb
  refine ⟨h1 m, ?_⟩
  intro msgs
  induction msgs generalizing m with
  | nil => intro _; simp [run]
  | cons x xs ih =>
    intro H
    have h0 : m.timerID < maxInt64 := by
      have := H 0 (by simp)
      simpa [run] using this
    have hstep := ih (Update U m x).1 (fun k hk => by
      have := H (k + 1) (by simp only [List.length_cons]; omega)
      simpa [run] using this)
    simp only [run, List.foldl_cons] at hstep ⊢
    exact le_trans (h1 m x h0) hstep

/-- Claim C3, amended, at a sample input: `pomo 25`, then "esc", "enter" and a
stale tick; the id goes from 1 to 2. -/
theorem timerID_monotone_witness :
    sample25.timerID < maxInt64 ∧
    sample25.timerID ≤ (Update frozenInput sample25 (Msg.KeyMsg "esc")).1.timerID ∧
    (run frozenInput sample25 [Msg.KeyMsg "esc", Msg.KeyMsg "enter", Msg.tickMsg 1]).timerID
      = 2 ∧
    sample25.timerID ≤
      (run frozenInput sample25 [Msg.KeyMsg "esc", Msg.KeyMsg "enter", Msg.tickMsg 1]).timerID :=
  ⟨by decide, (timerID_monotone frozenInput sample25).1 (Msg.KeyMsg "esc") (by decide),
    by decide,
    (timerID_monotone frozenInput sample25).2
      [Msg.KeyMsg "esc", Msg.KeyMsg "enter", Msg.tickMsg 1] (by decide)⟩

/-! ## C4: remaining time -/

theorem wrap64_id (x : Int) (h1 : -9223372036854775808 ≤ x) (h2 : x ≤ 9223372036854775807) :
    wrap64 x = x := by
  unfold wrap64; omega

theorem handleTimerFinish_durations (m : model)
    (t0 : m.autobreak = false → 0 ≤ m.timeLeft) (w0 : 0 ≤ m.workDuration)
    (b0 : 0 ≤ m.breakDuration)
    (hm : m.autobreak = false →
      m.timeLeft % Second = 0 ∧ m.workDuration % Second = 0 ∧ m.breakDuration % Second = 0) :
    DurationsOk (handleTimerFinish m).1 := by
  cases hab : m.autobreak
  · have h1 := hm hab
    have h2 := t0 hab
    simp only [handleTimerFinish, hab, Bool.false_eq_true, if_false, handleTimerFinishManual,
      DurationsOk]
    split_ifs <;> exact ⟨h2, w0, b0, fun _ _ => h1⟩
  · simp only [handleTimerFinish, hab, if_true, handleTimerFinishAuto, DurationsOk]
    split_ifs <;> refine ⟨?_, ?_, ?_, ?_⟩ <;>
      first
        | assumption
        | (intro _ h; cases h)

theorem Trans_durations {m : model} {msg : Msg} {r : model × Cmd} (h : Trans m msg r)
    (hi : DurationsOk m) (hp : durationStep m msg) : DurationsOk r.1 := by
  obtain ⟨t0, w0, b0, hw⟩ := hi
  cases h
  case start hs hf =>
    obtain ⟨p0, p1, p2⟩ := hp.1 rfl hs hf
    refine ⟨p0, p0, p1, fun _ hab => ?_⟩
    have := p2 hab
    exact ⟨this.1, this.1, this.2⟩
  case plus hs =>
    have hb := hp.2 rfl hs
    have hm := hw (by rw [hs]; decide)
    simp only [maxInt64, Minute] at hb
    have e : wrap64 (m.timeLeft + Minute) = m.timeLeft + Minute :=
      wrap64_id _ (by simp only [Minute]; omega) (by simp only [Minute]; omega)
    simp only [DurationsOk, e]
    simp only [Second, Minute] at hm ⊢
    refine ⟨by omega, w0, b0, fun _ hab => ?_⟩
    have := hm hab
    omega
  case toggleAuto s hs =>
    exact ⟨t0, w0, b0, fun hst => absurd hs hst⟩
  case edit hs fi ins =>
    exact ⟨t0, w0, b0, fun hst => absurd hs hst⟩
  case reset s hs =>
    exact ⟨le_refl _, w0, b0, fun hst => absurd rfl hst⟩
  case resize w h => exact ⟨t0, w0, b0, hw⟩
  case tickStale id hid => exact ⟨t0, w0, b0, hw⟩
  case tickIdle hid => exact ⟨t0, w0, b0, hw⟩
  case quitKey s => exact ⟨t0, w0, b0, hw⟩
  case nop => exact ⟨t0, w0, b0, hw⟩
  case pause s hs hpa => exact ⟨t0, w0, b0, fun _ => hw (by rw [hs]; decide)⟩
  case resume s hs hpa => exact ⟨t0, w0, b0, fun _ => hw (by rw [hs]; decide)⟩
  case no s hs => exact ⟨t0, w0, b0, fun _ => hw (by rw [hs]; decide)⟩
  case yesBreak s hs hc =>
    have hm := hw (by rw [hs]; decide)
    exact ⟨b0, w0, b0, fun _ hab => ⟨(hm hab).2.2, (hm hab).2.1, (hm hab).2.2⟩⟩
  case yesWorkQuit s hs hc hq =>
    have hm := hw (by rw [hs]; decide)
    exact ⟨w0, w0, b0, fun _ hab => ⟨(hm hab).2.1, (hm hab).2.1, (hm hab).2.2⟩⟩
  case yesWork s hs hc hq =>
    have hm := hw (by rw [hs]; decide)
    exact ⟨w0, w0, b0, fun _ hab => ⟨(hm hab).2.1, (hm hab).2.1, (hm hab).2.2⟩⟩
  case minus s hs ht =>
    have hm := hw (by rw [hs]; decide)
    simp only [DurationsOk, Second, Minute] at hm ht ⊢
    refine ⟨by omega, w0, b0, fun _ hab => ?_⟩
    have := hm hab
    omega
  case tickDec hs hpa ht =>
    have hm := hw (by rw [hs]; decide)
    simp only [DurationsOk, Second] at hm ht ⊢
    refine ⟨by omega, w0, b0, fun _ hab => ?_⟩
    have := hm hab
    omega
  case skip s hs =>
    exact handleTimerFinish_durations m (fun _ => t0) w0 b0 (hw (by rw [hs]; decide))
  case tickFinish hs hpa h0 h1 =>
    have hm := hw (by rw [hs]; decide)
    refine handleTimerFinish_durations _ (fun hab => ?_) w0 b0 (fun hab => ?_)
    · have := hm hab
      simp only [Second] at this h1 ⊢
      omega
    · have := hm hab
      simp only [Second] at this h1 ⊢
      refine ⟨?_, this.2.1, this.2.2⟩
      omega

theorem initialModel_durations (w b s : String) (h : durationArgs w b s) :
    DurationsOk (initialModel w b s) := by
  by_cases hw : w = ""
  · subst hw
    simp [initialModel, DurationsOk]
  · have := h hw
    simp only [initialModel, hw, ne_eq, not_false_eq_true, if_true, DurationsOk]
    exact ⟨this.1, this.1, this.2, fun _ hab => by cases hab⟩

/-- Claim C4 as stated fails, in three ways.  After `pomo 25 -5` the skipped
work phase is followed by a running break with five minutes less than nothing
left.  A work phase of 1500ms with manual confirmation has half a second less
than nothing left after two ticks.  After `pomo 2562047h47m` one "up" takes
the time left beyond the 64-bit range, around to a negative value. -/
theorem timeLeft_negative :
    (∀ U : InputUpdate,
      Reachable U (Update U (initialModel "25" "-5" "") (Msg.KeyMsg "s")).1 ∧
      (Update U (initialModel "25" "-5" "") (Msg.KeyMsg "s")).1.state = stateRunning ∧
      (Update U (initialModel "25" "-5" "") (Msg.KeyMsg "s")).1.timeLeft = -300000000000) ∧
    sampleHalfSecond.timeLeft = 1500000000 ∧
    (∀ U : InputUpdate,
      (run U sampleHalfSecond [Msg.tickMsg 1, Msg.tickMsg 1]).timeLeft = -500000000) ∧
    (initialModel "2562047h47m" "" "").timeLeft = 9223372020000000000 ∧
    (∀ U : InputUpdate,
      (Update U (initialModel "2562047h47m" "" "") (Msg.KeyMsg "up")).1.timeLeft
        = -9223371993709551616) := by
  refine ⟨fun U => ⟨?_, rfl, rfl⟩, by decide, fun U => rfl, by decide, fun U => rfl⟩
  refine ReachableVia.step (Msg.KeyMsg "s") (ReachableVia.init _ _ _ trivial) trivial ?_
  show Cmd.doTick 2 ≠ Cmd.Quit
  decide

/-- Claim C4, amended: `timeLeft` is never negative in a reachable model, when
every work and break text that starts the timer stands for a duration that is
not negative, and for a whole number of seconds if the timer is started with
manual confirmation, and when no minute is added beyond the 64-bit range. -/
theorem timeLeft_nonneg (U : InputUpdate) (m : model)
    (h : ReachableVia U durationArgs durationStep m) : 0 ≤ m.timeLeft := by
  have : DurationsOk m := by
    induction h with
    | init w b s hI => exact initialModel_durations w b s hI
    | step msg _ hp _ ih => exact Trans_durations (Update_trans U _ msg) ih hp
  exact this.1

/-- Claim C4, amended, at a sample input: `pomo 1500ms` after two ticks, in the
break that follows the work phase of one second and a half. -/
theorem timeLeft_nonneg_witness :
    ReachableVia frozenInput durationArgs durationStep
        (Update frozenInput (Update frozenInput sample1500ms (Msg.tickMsg 1)).1
          (Msg.tickMsg 1)).1 ∧
      (Update frozenInput (Update frozenInput sample1500ms (Msg.tickMsg 1)).1
          (Msg.tickMsg 1)).1.timerType = typeBreak ∧
      0 ≤ (Update frozenInput (Update frozenInput sample1500ms (Msg.tickMsg 1)).1
          (Msg.tickMsg 1)).1.timeLeft :=
  have h : ReachableVia frozenInput durationArgs durationStep
      (Update frozenInput (Update frozenInput sample1500ms (Msg.tickMsg 1)).1
        (Msg.tickMsg 1)).1 :=
    ReachableVia.step (Msg.tickMsg 1)
      (ReachableVia.step (Msg.tickMsg 1)
        (ReachableVia.init "1500ms" "" "" (fun _ => ⟨(by decide), (by decide)⟩))
        ⟨fun e => (by cases e), fun e => (by cases e)⟩ (by decide))
      ⟨fun e => (by cases e), fun e => (by cases e)⟩ (by decide)
  ⟨h, by decide, timeLeft_nonneg frozenInput _ h⟩

/-! ## C5: the session counter -/

theorem parseSessions_pos (t : String) (h : 0 ≤ (Atoi t).1) : 1 ≤ parseSessions t := by
  unfold parseSessions; split_ifs <;> omega

theorem Trans_sessions {m : model} {msg : Msg} {r : model × Cmd} (h : Trans m msg r)
    (hi : SessionsOk m) (hp : sessionStep m msg) :
    0 ≤ r.1.sessionsTotal ∧ (r.1.currentSession > r.1.sessionsTotal → r.2 = Cmd.Quit) := by
  obtain ⟨c0, c1⟩ := hi
  cases h
  case start hs _ =>
    have := parseSessions_pos _ (hp rfl hs)
    simp only [startTimer]
    exact ⟨by omega, fun h => absurd h (by omega)⟩
  all_goals
    simp only [resetToSetup, handleTimerFinish, handleTimerFinishAuto,
      handleTimerFinishManual] at *
    try split_ifs
    all_goals try dsimp only at *
    all_goals first
      | exact ⟨by omega, fun _ => rfl⟩
      | exact ⟨by omega, fun h => absurd h (by omega)⟩
      | exact ⟨by omega, fun _ => trivial⟩

theorem initialModel_sessions (w b s : String) (h : sessionArgs w b s) :
    SessionsOk (initialModel w b s) := by
  by_cases hw : w = ""
  · subst hw
    simp [initialModel, SessionsOk]
  · have := parseSessions_pos s h
    simp only [initialModel, hw, ne_eq, not_false_eq_true, if_true, SessionsOk]
    omega

theorem reachable_sessions (U : InputUpdate) (m : model)
    (h : ReachableVia U sessionArgs sessionStep m) : SessionsOk m := by
  induction h with
  | init w b s hI => exact initialModel_sessions w b s hI
  | step msg _ hp hq ih =>
    have := Trans_sessions (Update_trans U _ msg) ih hp
    exact ⟨this.1, not_lt.mp (fun hgt => hq (this.2 hgt))⟩

/-- Claim C5 as stated fails: `pomo 25 5 -1` runs session 1 of -1, and pausing
it gives a model with `currentSession > sessionsTotal` without a quit. -/
theorem negative_session_count :
    (∀ U : InputUpdate, Reachable U (initialModel "25" "5" "-1")) ∧
    (initialModel "25" "5" "-1").state = stateRunning ∧
    (initialModel "25" "5" "-1").currentSession = 1 ∧
    (initialModel "25" "5" "-1").sessionsTotal = -1 ∧
    (∀ U : InputUpdate,
      (Update U (initialModel "25" "5" "-1") (Msg.KeyMsg " ")).2 ≠ Cmd.Quit ∧
      (Update U (initialModel "25" "5" "-1") (Msg.KeyMsg " ")).1.currentSession
        > (Update U (initialModel "25" "5" "-1") (Msg.KeyMsg " ")).1.sessionsTotal) := by
  refine ⟨fun U => ReachableVia.init _ _ _ trivial, by decide, by decide, by decide,
    fun U => ⟨?_, ?_⟩⟩
  · show Cmd.none ≠ Cmd.Quit
    decide
  · show (1 : Int) > -1
    decide

/-- Claim C5, amended: when no session count that starts the timer is negative,
a reachable model has `currentSession ≤ sessionsTotal` (in particular while
running or awaiting confirmation), and every step to a model with
`currentSession > sessionsTotal` returns `tea.Quit`. -/
theorem session_bound (U : InputUpdate) (m : model)
    (h : ReachableVia U sessionArgs sessionStep m) :
    ((m.state = stateRunning ∨ m.state = statePopup) → m.currentSession ≤ m.sessionsTotal) ∧
    (∀ msg : Msg, sessionStep m msg →
      (Update U m msg).1.currentSession > (Update U m msg).1.sessionsTotal →
      (Update U m msg).2 = Cmd.Quit) :=
  ⟨fun _ => (reachable_sessions U m h).2,
   fun msg hp => (Trans_sessions (Update_trans U m msg) (reachable_sessions U m h) hp).2⟩

/-- Claim C5, amended, at a sample input: `pomo 25` after the work phase is
skipped. -/
theorem session_bound_witness :
    ReachableVia frozenInput sessionArgs sessionStep
        (Update frozenInput sample25 (Msg.KeyMsg "s")).1 ∧
      (Update frozenInput sample25 (Msg.KeyMsg "s")).1.currentSession
        ≤ (Update frozenInput sample25 (Msg.KeyMsg "s")).1.sessionsTotal :=
  have h : ReachableVia frozenInput sessionArgs sessionStep
      (Update frozenInput sample25 (Msg.KeyMsg "s")).1 :=
    ReachableVia.step (Msg.KeyMsg "s")
      (ReachableVia.init "25" "" "" (by unfold sessionArgs; decide))
      (fun e => absurd e (by decide)) (by decide)
  ⟨h, (session_bound frozenInput _ h).1 (Or.inl (by decide))⟩

/-! ## C6: the last second -/

/-- Claim C6 as stated fails, in two ways.  With nothing left (`pomo 0`) a tick
with the current id leaves the running, unpaused model unchanged and returns no
command, which is not what `handleTimerFinish` returns.  With one second left
and manual confirmation the tick takes the second off before it opens the
popup, so its result has nothing left, while `handleTimerFinish` applied to the
model keeps the second. -/
theorem tick_at_zero_is_idle :
    sampleZero.state = stateRunning ∧ sampleZero.paused = false ∧ sampleZero.timeLeft = 0 ∧
    sampleZero.timeLeft ≤ Second ∧
    (∀ U : InputUpdate, Update U sampleZero (Msg.tickMsg sampleZero.timerID)
        = (sampleZero, Cmd.none)) ∧
    handleTimerFinish sampleZero ≠ (sampleZero, Cmd.none) ∧
    sampleLastSecond.state = stateRunning ∧ sampleLastSecond.paused = false ∧
    sampleLastSecond.timeLeft = Second ∧
    (∀ U : InputUpdate,
      (Update U sampleLastSecond (Msg.tickMsg sampleLastSecond.timerID)).1.timeLeft = 0) ∧
    (handleTimerFinish sampleLastSecond).1.timeLeft = Second := by
  refine ⟨by decide, by decide, by decide, by decide, fun U => rfl, by decide,
    by decide, by decide, by decide, fun U => rfl, by decide⟩

/-- Claim C6, amended: running, not paused, with some time left but no more
than one second, a tick with the current id runs the finish-phase logic and
never leaves the model unchanged.  With automatic breaks the result is
`handleTimerFinish` applied to the model: the phase is switched, the time left
is the duration of the new phase, the session counter moves on after a break,
the timer id is incremented, and the command is a tick with the new id, or
`tea.Quit` when the sessions are over.  With manual confirmation the result is
`handleTimerFinish` applied to the model with the second taken off: the popup
is open, phase and session counter are kept, the timer id is incremented and
there is no command. -/
theorem tick_expiry (U : InputUpdate) (m : model) (hs : m.state = stateRunning)
    (hp : m.paused = false) (h0 : 0 < m.timeLeft) (h1 : m.timeLeft ≤ Second) :
    (m.autobreak = true →
      Update U m (Msg.tickMsg m.timerID) = handleTimerFinish m ∧
      (Update U m (Msg.tickMsg m.timerID)).1.timerType
        = (if m.timerType = typeWork then typeBreak else typeWork) ∧
      (Update U m (Msg.tickMsg m.timerID)).1.timeLeft
        = (if m.timerType = typeWork then m.breakDuration else m.workDuration) ∧
      (Update U m (Msg.tickMsg m.timerID)).1.currentSession
        = (if m.timerType = typeWork then m.currentSession
            else wrap64 (m.currentSession + 1)) ∧
      (Update U m (Msg.tickMsg m.timerID)).1.timerID = wrap64 (m.timerID + 1) ∧
      (Update U m (Msg.tickMsg m.timerID)).2
        = (if (Update U m (Msg.tickMsg m.timerID)).1.currentSession > m.sessionsTotal
            then Cmd.Quit else Cmd.doTick (wrap64 (m.timerID + 1)))) ∧
    (m.autobreak = false →
      Update U m (Msg.tickMsg m.timerID)
        = handleTimerFinish { m with timeLeft := m.timeLeft - Second } ∧
      (Update U m (Msg.tickMsg m.timerID)).1.state = statePopup ∧
      (Update U m (Msg.tickMsg m.timerID)).1.timerType = m.timerType ∧
      (Update U m (Msg.tickMsg m.timerID)).1.currentSession = m.currentSession ∧
      (Update U m (Msg.tickMsg m.timerID)).1.timeLeft = m.timeLeft - Second ∧
      (Update U m (Msg.tickMsg m.timerID)).1.timerID = wrap64 (m.timerID + 1) ∧
      (Update U m (Msg.tickMsg m.timerID)).2 = Cmd.none) ∧
    (Update U m (Msg.tickMsg m.timerID)).1 ≠ m := by
  have hU : Update U m (Msg.tickMsg m.timerID)
      = handleTimerFinish { m with timeLeft := m.timeLeft - Second } := by
    simp [Update, hs, hp, h0, h1]
  have hauto : m.autobreak = true →
      handleTimerFinish { m with timeLeft := m.timeLeft - Second } = handleTimerFinish m := by
    intro ha
    simp only [handleTimerFinish, ha, if_true, handleTimerFinishAuto]
  refine ⟨fun ha => ?_, fun ha => ?_, ?_⟩
  · rw [hU, hauto ha]
    simp only [handleTimerFinish, ha, if_true, handleTimerFinishAuto]
    refine ⟨trivial, ?_⟩
    cases hw : m.timerType <;> simp only [reduceCtorEq, if_true, if_false] <;>
      split_ifs <;> simp_all
  · rw [hU]
    simp only [handleTimerFinish, ha, Bool.false_eq_true, if_false, handleTimerFinishManual]
    refine ⟨trivial, ?_⟩
    split_ifs <;> simp
  · rw [hU]
    intro e
    cases ha : m.autobreak
    · have := congrArg model.state e
      simp only [handleTimerFinish, ha, Bool.false_eq_true, if_false,
        handleTimerFinishManual] at this
      split_ifs at this <;> simp [hs] at this
    · have := congrArg model.timerType e
      simp only [handleTimerFinish, ha, if_true, handleTimerFinishAuto] at this
      cases hw : m.timerType <;> simp only [hw, reduceCtorEq, if_true, if_false] at this <;>
        split_ifs at this

/-- Claim C6, amended, at a sample input: `pomo 1s`, whose first tick ends the
work phase and starts the break. -/
theorem tick_expiry_witness :
    sampleOneSecond.state = stateRunning ∧ sampleOneSecond.paused = false ∧
    0 < sampleOneSecond.timeLeft ∧ sampleOneSecond.timeLeft ≤ Second ∧
    sampleOneSecond.autobreak = true ∧
    Update frozenInput sampleOneSecond (Msg.tickMsg sampleOneSecond.timerID)
      = handleTimerFinish sampleOneSecond ∧
    (Update frozenInput sampleOneSecond (Msg.tickMsg sampleOneSecond.timerID)).1.timerType
      = typeBreak ∧
    (Update frozenInput sampleOneSecond (Msg.tickMsg sampleOneSecond.timerID)).2
      = Cmd.doTick 2 :=
  ⟨by decide, by decide, by decide, by decide, by decide,
    ((tick_expiry frozenInput sampleOneSecond (by decide) (by decide) (by decide)
      (by decide)).1 (by decide)).1,
    by decide, by decide⟩

/-! ## C7: one minute less -/

/-- Claim C7 as stated fails at its own sample: with 90 seconds left, "down"
leaves 30 seconds, not the 60 seconds of `max (timeLeft - 1 minute) (1 minute)`. -/
theorem minus_minute_at_90s :
    sample90s.state = stateRunning ∧ Minute ≤ sample90s.timeLeft ∧
    sample90s.timeLeft = 90 * Second ∧
    (∀ U : InputUpdate, (Update U sample90s (Msg.KeyMsg "down")).1.timeLeft = 30 * Second) ∧
    max (sample90s.timeLeft - Minute) Minute = 60 * Second := by
  refine ⟨by decide, by decide, by decide, fun U => rfl, by decide⟩

/-- Claim C7, amended: running with at least a minute left, "down" takes a minute
off when more than a minute is left and changes nothing otherwise, and returns
no command; the time left stays positive. -/
theorem minus_minute (U : InputUpdate) (m : model) (hs : m.state = stateRunning)
    (ht : Minute ≤ m.timeLeft) :
    Update U m (Msg.KeyMsg "down")
      = ({ m with timeLeft := if Minute < m.timeLeft then m.timeLeft - Minute else m.timeLeft },
          Cmd.none) ∧
    0 < (Update U m (Msg.KeyMsg "down")).1.timeLeft := by
  have hU : Update U m (Msg.KeyMsg "down")
      = ({ m with timeLeft := if Minute < m.timeLeft then m.timeLeft - Minute else m.timeLeft },
          Cmd.none) := by
    have h1 : setupKey m "down" = Option.none := by simp [setupKey, hs]
    by_cases h : Minute < m.timeLeft
    · have h2 : runningKey m "down" = Sum.inr { m with timeLeft := m.timeLeft - Minute } := by
        simp [runningKey, hs, h]
      simp [Update, h1, h2, popupKey, updateTail, hs, h]
    · have h2 : runningKey m "down" = Sum.inr m := by
        simp [runningKey, hs, h]
      simp [Update, h1, h2, popupKey, updateTail, hs, h]
      cases m; simp_all
  refine ⟨hU, ?_⟩
  rw [hU]
  simp only [Minute] at ht ⊢
  split_ifs <;> omega

/-- Claim C7, amended, at a sample input: `pomo 90s`. -/
theorem minus_minute_witness :
    sample90s.state = stateRunning ∧ Minute ≤ sample90s.timeLeft ∧
    0 < (Update frozenInput sample90s (Msg.KeyMsg "down")).1.timeLeft :=
  ⟨by decide, by decide, (minus_minute frozenInput sample90s (by decide) (by decide)).2⟩

/-! ## C8: confirmation -/

theorem digitChar_ne_W (d : Nat) (h : d < 10) : Nat.digitChar d ≠ 'W' := by
  interval_cases d <;> decide

theorem toDigitsCore_ne_W (fuel : Nat) : ∀ (n : Nat) (ds : List Char),
    (∀ c ∈ ds, c ≠ 'W') → ∀ c ∈ Nat.toDigitsCore 10 fuel n ds, c ≠ 'W' := by
  induction fuel with
  | zero => intro n ds h c hc; exact h c (by simpa [Nat.toDigitsCore] using hc)
  | succ k ih =>
    intro n ds h c hc
    have hd : ∀ c ∈ Nat.digitChar (n % 10) :: ds, c ≠ 'W' := by
      intro c hc
      rcases List.mem_cons.mp hc with rfl | hc
      · exact digitChar_ne_W _ (Nat.mod_lt _ (by decide))
      · exact h c hc
    simp only [Nat.toDigitsCore] at hc
    split_ifs at hc
    · exact hd c hc
    · exact ih _ _ hd c hc

theorem fmtInt_ne_W (n : Int) : ∀ c ∈ (fmtInt n).data, c ≠ 'W' := by
  have hrepr : ∀ k : Nat, ∀ c ∈ (Nat.repr k).data, c ≠ 'W' := by
    intro k c hc
    exact toDigitsCore_ne_W _ _ [] (by simp) c (by simpa [Nat.repr, Nat.toDigits] using hc)
  intro c hc
  cases n with
  | ofNat k => exact hrepr k c (by simpa [fmtInt] using hc)
  | negSucc k =>
    simp only [fmtInt, String.data_append, List.mem_append] at hc
    rcases hc with hc | hc
    · have : c = '-' := by simpa using hc
      subst this; decide
    · exact hrepr _ c hc

theorem isPrefixOf_append_self (p rest : List Char) : p.isPrefixOf (p ++ rest) = true := by
  induction p with
  | nil => simp [List.isPrefixOf]
  | cons a p ih => simp [List.isPrefixOf, ih]

theorem containsChars_of_append (p rest : List Char) :
    containsChars (p ++ rest) p = true := by
  unfold containsChars
  rw [List.any_eq_true]
  refine ⟨p ++ rest, ?_, isPrefixOf_append_self p rest⟩
  cases h : p ++ rest <;> simp [List.tails]

theorem containsChars_absent (c : Char) (sub s : List Char) (h : c ∉ s) :
    containsChars s (c :: sub) = false := by
  unfold containsChars
  rw [List.any_eq_false]
  intro t ht
  rw [List.mem_tails] at ht
  cases t with
  | nil => simp [List.isPrefixOf]
  | cons a t' =>
    have ha : a ∈ s := ht.subset (List.mem_cons_self _ _)
    have : c ≠ a := fun e => h (e ▸ ha)
    simp [List.isPrefixOf, this]

theorem popup_work_message (m : model) (hw : m.timerType = typeWork) :
    Contains (handleTimerFinishManual m).1.popupMessage "Work session" = true := by
  simp only [handleTimerFinishManual, hw, if_true, Contains, String.data_append,
    List.append_assoc]
  exact containsChars_of_append "Work session".data _

theorem popup_break_message (m : model) (hw : m.timerType = typeBreak) :
    Contains (handleTimerFinishManual m).1.popupMessage "Work session" = false := by
  simp only [handleTimerFinishManual, hw, reduceCtorEq, if_false, Contains,
    String.data_append]
  apply containsChars_absent
  simp only [List.mem_append, not_or]
  refine ⟨⟨⟨⟨by decide, ?_⟩, by decide⟩, ?_⟩, by decide⟩
  · exact fun h => fmtInt_ne_W _ _ h rfl
  · exact fun h => fmtInt_ne_W _ _ h rfl

theorem Update_yes (U : InputUpdate) (m : model) (k : String) (hk : k = "y" ∨ k = "Y")
    (hs : m.state = statePopup) :
    Update U m (Msg.KeyMsg k) =
      if Contains m.popupMessage "Work session" = true then
        ({ m with timerType := typeBreak, timeLeft := m.breakDuration, paused := false,
                  state := stateRunning }, Cmd.doTick m.timerID)
      else if wrap64 (m.currentSession + 1) > m.sessionsTotal then
        ({ m with timerType := typeWork, timeLeft := m.workDuration,
                  currentSession := wrap64 (m.currentSession + 1), paused := false,
                  state := stateRunning }, Cmd.Quit)
      else
        ({ m with timerType := typeWork, timeLeft := m.workDuration,
                  currentSession := wrap64 (m.currentSession + 1), paused := false,
                  state := stateRunning }, Cmd.doTick m.timerID) := by
  have hq : ¬ (k = "ctrl+c" ∨ k = "q") := by
    rcases hk with rfl | rfl <;> decide
  have h1 : setupKey m k = Option.none := by simp [setupKey, hs]
  have h2 : runningKey m k = Sum.inr m := by simp [runningKey, hs]
  simp only [Update, hq, if_false, h1, h2, popupKey, hs, if_true, hk]
  split_ifs <;> rfl

/-- Claim C8 as stated fails: in a work phase with `currentSession >
sessionsTotal` (`pomo 25 5 -2`) the automatic transition returns `tea.Quit`,
while the manual one followed by "y" schedules a tick. -/
theorem confirm_yes_counterexample :
    sampleNegSessions.state = stateRunning ∧ sampleNegSessions.timerType = typeWork ∧
    (handleTimerFinishAuto sampleNegSessions).2 = Cmd.Quit ∧
    (∀ U : InputUpdate,
      (Update U (handleTimerFinishManual sampleNegSessions).1 (Msg.KeyMsg "y")).2
        = Cmd.doTick 2) := by
  refine ⟨by decide, by decide, by decide, fun U => rfl⟩

/-- Claim C8, amended: for a running model that is in a break, or in a work phase
with `currentSession ≤ sessionsTotal`, the manual transition opens the popup
without a command, its message contains "Work session" exactly in a work phase,
and "y" (or "Y") then gives the same `timerType`, `timeLeft`, `currentSession`,
`timerID` and `state` and the same command as the automatic transition: a tick
with the new id, or `tea.Quit` when the sessions are over. -/
theorem confirm_yes_as_auto (U : InputUpdate) (m : model) (k : String)
    (hk : k = "y" ∨ k = "Y") (hs : m.state = stateRunning)
    (hb : m.timerType = typeWork → m.currentSession ≤ m.sessionsTotal) :
    (handleTimerFinishManual m).1.state = statePopup ∧
    (handleTimerFinishManual m).2 = Cmd.none ∧
    (Contains (handleTimerFinishManual m).1.popupMessage "Work session" = true
      ↔ m.timerType = typeWork) ∧
    phaseView (Update U (handleTimerFinishManual m).1 (Msg.KeyMsg k)).1
      = phaseView (handleTimerFinishAuto m).1 ∧
    (Update U (handleTimerFinishManual m).1 (Msg.KeyMsg k)).2 = (handleTimerFinishAuto m).2 ∧
    ((handleTimerFinishAuto m).2 = Cmd.doTick (wrap64 (m.timerID + 1)) ∨
      ((handleTimerFinishAuto m).2 = Cmd.Quit ∧
        (handleTimerFinishAuto m).1.currentSession > (handleTimerFinishAuto m).1.sessionsTotal)) := by
  have hpop : (handleTimerFinishManual m).1.state = statePopup := by
    simp only [handleTimerFinishManual]; split_ifs <;> rfl
  rw [Update_yes U _ k hk hpop]
  cases hw : m.timerType
  · have hc := popup_work_message m hw
    have hle := hb hw
    have hnq : ¬ m.currentSession > m.sessionsTotal := not_lt.mpr hle
    rw [hc]
    simp [handleTimerFinishManual, handleTimerFinishAuto, hw, phaseView, hs, hnq]
  · have hc := popup_break_message m hw
    rw [hc]
    by_cases hq : wrap64 (m.currentSession + 1) > m.sessionsTotal
    · simp [handleTimerFinishManual, handleTimerFinishAuto, hw, phaseView, hs, hq]
    · simp [handleTimerFinishManual, handleTimerFinishAuto, hw, phaseView, hs, hq]

/-- Claim C8, amended, at a sample input: the model of `pomo 25`. -/
theorem confirm_yes_as_auto_witness :
    sample25.state = stateRunning ∧
    (sample25.timerType = typeWork → sample25.currentSession ≤ sample25.sessionsTotal) ∧
    phaseView (Update frozenInput (handleTimerFinishManual sample25).1 (Msg.KeyMsg "y")).1
      = phaseView (handleTimerFinishAuto sample25).1 :=
  ⟨by decide, by decide,
    (confirm_yes_as_auto frozenInput sample25 "y" (Or.inl rfl) (by decide) (by decide)).2.2.2.1⟩

/-! ## C9: confirmation declined -/

/-- Claim C9 as stated fails: with one second left, the expiring tick and "n"
give a running model with nothing left, not the second it had before the
tick. -/
theorem declined_after_last_second :
    sampleLastSecond.state = stateRunning ∧ sampleLastSecond.paused = false ∧
    sampleLastSecond.autobreak = false ∧ sampleLastSecond.timeLeft = Second ∧
    (∀ U : InputUpdate,
      (Update U sampleLastSecond (Msg.tickMsg sampleLastSecond.timerID)).1.state = statePopup ∧
      (Update U (Update U sampleLastSecond (Msg.tickMsg sampleLastSecond.timerID)).1
        (Msg.KeyMsg "n")).1.timeLeft = 0) := by
  refine ⟨by decide, by decide, by decide, by decide, fun U => ⟨rfl, rfl⟩⟩

/-- Claim C9, amended: running, not paused, manual confirmation, between nothing
and a second left.  The tick with the current id opens the popup without a
command, and "n" (or "N") then gives a running model with the same `timerType`
and `currentSession`, with `timeLeft` one second below its value before the
tick, and no command. -/
theorem declined_confirmation (U : InputUpdate) (m : model) (k : String)
    (hk : k = "n" ∨ k = "N")
    (hs : m.state = stateRunning) (hp : m.paused = false) (ha : m.autobreak = false)
    (h0 : 0 < m.timeLeft) (h1 : m.timeLeft ≤ Second) :
    (Update U m (Msg.tickMsg m.timerID)).1.state = statePopup ∧
    (Update U m (Msg.tickMsg m.timerID)).2 = Cmd.none ∧
    (Update U (Update U m (Msg.tickMsg m.timerID)).1 (Msg.KeyMsg k)).1.state = stateRunning ∧
    (Update U (Update U m (Msg.tickMsg m.timerID)).1 (Msg.KeyMsg k)).1.timerType = m.timerType ∧
    (Update U (Update U m (Msg.tickMsg m.timerID)).1 (Msg.KeyMsg k)).1.currentSession
      = m.currentSession ∧
    (Update U (Update U m (Msg.tickMsg m.timerID)).1 (Msg.KeyMsg k)).1.timeLeft
      = m.timeLeft - Second ∧
    (Update U (Update U m (Msg.tickMsg m.timerID)).1 (Msg.KeyMsg k)).2 = Cmd.none := by
  have hT : Update U m (Msg.tickMsg m.timerID)
      = handleTimerFinishManual { m with timeLeft := m.timeLeft - Second } := by
    simp [Update, hs, hp, h0, h1, handleTimerFinish, ha]
  rw [hT]
  have hq : ¬ (k = "ctrl+c" ∨ k = "q") := by
    rcases hk with rfl | rfl <;> decide
  have ha : ¬ (k = "y" ∨ k = "Y") := by
    rcases hk with rfl | rfl <;> decide
  cases hw : m.timerType <;>
    simp [handleTimerFinishManual, hw, Update, hq, setupKey, runningKey, popupKey, ha, hk]

/-- Claim C9, amended, at a sample input: one second left, manual confirmation. -/
theorem declined_confirmation_witness :
    sampleLastSecond.state = stateRunning ∧ sampleLastSecond.paused = false ∧
    sampleLastSecond.autobreak = false ∧ 0 < sampleLastSecond.timeLeft ∧
    sampleLastSecond.timeLeft ≤ Second ∧
    (Update frozenInput (Update frozenInput sampleLastSecond
        (Msg.tickMsg sampleLastSecond.timerID)).1 (Msg.KeyMsg "n")).1.timeLeft
      = sampleLastSecond.timeLeft - Second :=
  ⟨by decide, by decide, by decide, by decide, by decide,
    (declined_confirmation frozenInput sampleLastSecond "n" (Or.inl rfl) (by decide)
      (by decide) (by decide) (by decide) (by decide)).2.2.2.2.2.1⟩

/-! ## C10: `parseDurationInput` -/

theorem leadingInt_length : ∀ (s : List Char) (x v : Nat) (r : List Char),
    leadingInt s x = some (v, r) → r.length ≤ s.length := by
  intro s
  induction s with
  | nil => intro x v r h; simp [leadingInt] at h; simp [h.2.symm]
  | cons c cs ih =>
    intro x v r h
    simp only [leadingInt] at h
    split_ifs at h
    · have := ih _ _ _ h
      simp only [List.length_cons]; omega
    · cases h; exact le_refl _

theorem leadingFraction_length : ∀ (s : List Char) (x k : Nat) (o : Bool),
    (leadingFraction s x k o).2.2.length ≤ s.length := by
  intro s
  induction s with
  | nil => intro x k o; simp [leadingFraction]
  | cons c cs ih =>
    intro x k o
    simp only [leadingFraction]
    split_ifs <;> first
      | exact le_trans (ih _ _ _) (by simp)
      | simp

theorem fractionPart_length (s : List Char) : (fractionPart s).2.2.1.length ≤ s.length := by
  unfold fractionPart
  split
  · exact le_trans (leadingFraction_length _ _ _ _) (by simp)
  · exact le_refl _

theorem dropWhile_length_lt (p : Char → Bool) (l : List Char) (h : l.takeWhile p ≠ []) :
    (l.dropWhile p).length < l.length := by
  have h1 := congrArg List.length (List.takeWhile_append_dropWhile p l)
  have h2 : 0 < (l.takeWhile p).length := List.length_pos.mpr h
  simp only [List.length_append] at h1
  omega

theorem parseTerm_length (c : Char) (cs : List Char) (d : Nat) (r : List Char × Nat)
    (h : parseTerm c cs d = some r) : r.1.length < (c :: cs).length := by
  simp only [parseTerm] at h
  split at h
  · cases h
  · split at h
    · cases h
    · rename_i v s1 hL
      have l1 := leadingInt_length _ _ _ _ hL
      have l2 := fractionPart_length s1
      split at h
      · cases h
      · split at h
        · cases h
        · rename_i hu
          have l3 := dropWhile_length_lt (fun x => ! isNumChar x) _ hu
          split at h
          · cases h
          · split_ifs at h
            all_goals
              cases h
              simp only []
              omega

/-- The fuel of `parseLoop` is never used up: with at least as much fuel as
the text is long, the result does not depend on the fuel. -/
theorem parseLoop_fuel : ∀ (f1 f2 : Nat) (s : List Char) (d : Nat),
    s.length ≤ f1 → s.length ≤ f2 → parseLoop f1 s d = parseLoop f2 s d := by
  intro f1
  induction f1 with
  | zero =>
    intro f2 s d h1 _
    have : s = [] := List.length_eq_zero.mp (Nat.le_zero.mp h1)
    subst this
    cases f2 <;> rfl
  | succ k1 ih =>
    intro f2 s d h1 h2
    cases s with
    | nil => cases f2 <;> rfl
    | cons c cs =>
      cases f2 with
      | zero => simp at h2
      | succ k2 =>
        simp only [parseLoop]
        cases hT : parseTerm c cs d with
        | none => rfl
        | some r =>
          have := parseTerm_length c cs d r hT
          simp only [List.length_cons] at h1 h2 this
          exact ih _ _ _ (by omega) (by omega)

theorem minutes_exact (n : Int) (h1 : -153722867 ≤ n) (h2 : n ≤ 153722867) :
    minutes n = n * Minute := by
  unfold minutes
  apply wrap64_id <;> simp only [Minute] <;> omega

theorem digit_not_sign (c : Char) (h : isDigit c = true) : c ≠ '-' ∧ c ≠ '+' ∧ c ≠ '.' := by
  refine ⟨?_, ?_, ?_⟩ <;> (rintro rfl; revert h; decide)

theorem splitSign_digit (c : Char) (cs : List Char) (h : isDigit c = true) :
    splitSign (c :: cs) = (false, c :: cs) := by
  obtain ⟨h1, h2, _⟩ := digit_not_sign c h
  unfold splitSign
  split
  · rename_i heq; cases heq; exact absurd rfl h1
  · rename_i heq; cases heq; exact absurd rfl h2
  · rfl

theorem foldl_digits_ge (ds : List Char) : ∀ x : Nat,
    x ≤ ds.foldl (fun a c => 10 * a + digitVal c) x := by
  induction ds with
  | nil => intro x; simp
  | cons c cs ih =>
    intro x
    simp only [List.foldl_cons]
    exact le_trans (by omega) (ih _)

/-- `leadingInt` reads a run of digits up to the first other character. -/
theorem leadingInt_digits (ds rest : List Char) (hd : ∀ c ∈ ds, isDigit c = true)
    (hr : ∀ c cs, rest = c :: cs → isDigit c = false) : ∀ x : Nat,
    ds.foldl (fun a c => 10 * a + digitVal c) x ≤ 9223372036854775808 →
    leadingInt (ds ++ rest) x = some (ds.foldl (fun a c => 10 * a + digitVal c) x, rest) := by
  induction ds with
  | nil =>
    intro x _
    cases rest with
    | nil => simp [leadingInt]
    | cons c cs => simp [leadingInt, hr c cs rfl]
  | cons c cs ih =>
    intro x hx
    have hc : isDigit c = true := hd c (List.mem_cons_self _ _)
    have hcs : ∀ c ∈ cs, isDigit c = true := fun a ha => hd a (List.mem_cons_of_mem _ ha)
    simp only [List.foldl_cons] at hx
    have hge := foldl_digits_ge cs (10 * x + digitVal c)
    have e : x * 10 + digitVal c = 10 * x + digitVal c := by omega
    have h1 : ¬ 922337203685477580 < x := by omega
    have h2 : ¬ 9223372036854775808 < x * 10 + digitVal c := by omega
    simp only [List.cons_append, leadingInt, hc, if_true, h1, h2, if_false, List.foldl_cons]
    rw [e]
    exact ih hcs _ hx

/-- On a text of digits only, `leadingInt` fails or reads it all. -/
theorem leadingInt_all_digits (ds : List Char) (hd : ∀ c ∈ ds, isDigit c = true) : ∀ x : Nat,
    leadingInt ds x = none ∨ ∃ y, leadingInt ds x = some (y, []) := by
  induction ds with
  | nil => intro x; exact Or.inr ⟨x, rfl⟩
  | cons c cs ih =>
    intro x
    have hc : isDigit c = true := hd c (List.mem_cons_self _ _)
    have hcs : ∀ c ∈ cs, isDigit c = true := fun a ha => hd a (List.mem_cons_of_mem _ ha)
    simp only [leadingInt, hc, if_true]
    split_ifs
    · exact Or.inl rfl
    · exact Or.inl rfl
    · exact ih hcs _

theorem parseLoop_digits (ds : List Char) (hd : ∀ c ∈ ds, isDigit c = true) (hne : ds ≠ [])
    (fuel d : Nat) : parseLoop fuel ds d = none := by
  cases ds with
  | nil => exact absurd rfl hne
  | cons c cs =>
    cases fuel with
    | zero => rfl
    | succ k =>
      have hc : isDigit c = true := hd c (List.mem_cons_self _ _)
      have hn : isNumChar c = true := by simp [isNumChar, hc]
      rcases leadingInt_all_digits (c :: cs) hd 0 with h | ⟨y, h⟩
      · simp [parseLoop, parseTerm, hn, h]
      · simp [parseLoop, parseTerm, hn, h, fractionPart]

theorem ParseDuration_digits (p : Bool × List Char) (t : String) (hp : splitSign t.data = p)
    (hd : ∀ c ∈ p.2, isDigit c = true) (hne : p.2 ≠ []) :
    ParseDuration t = none ∨ (ParseDuration t = some 0 ∧ decimalValue p.2 = 0) := by
  unfold ParseDuration
  simp only [hp]
  by_cases h0 : p.2 = ['0']
  · right; exact ⟨by simp [h0], by rw [h0]; decide⟩
  · left; simp [h0, hne, parseLoop_digits p.2 hd hne]

/-- `parseUintLoop` reads a run of digits whose value fits 64 bits. -/
theorem parseUintLoop_digits (ds : List Char) (hd : ∀ c ∈ ds, isDigit c = true) : ∀ x : Nat,
    ds.foldl (fun a c => 10 * a + digitVal c) x ≤ 18446744073709551615 →
    parseUintLoop ds x = UintResult.ok (ds.foldl (fun a c => 10 * a + digitVal c) x) := by
  induction ds with
  | nil => intro x _; rfl
  | cons c cs ih =>
    intro x hx
    have hc : isDigit c = true := hd c (List.mem_cons_self _ _)
    have hcs : ∀ c ∈ cs, isDigit c = true := fun a ha => hd a (List.mem_cons_of_mem _ ha)
    simp only [List.foldl_cons] at hx
    have hge := foldl_digits_ge cs (10 * x + digitVal c)
    have e : x * 10 + digitVal c = 10 * x + digitVal c := by omega
    have h1 : ¬ 1844674407370955162 ≤ x := by omega
    have h2 : ¬ 18446744073709551615 < x * 10 + digitVal c := by omega
    simp only [parseUintLoop, hc, not_true_eq_false, if_false, h1, h2, List.foldl_cons]
    rw [e]
    exact ih hcs _ hx

theorem Atoi_digits (p : Bool × List Char) (t : String) (hp : splitSign t.data = p)
    (hd : ∀ c ∈ p.2, isDigit c = true) (hne : p.2 ≠ [])
    (hr : decimalValue p.2 < 9223372036854775808) :
    Atoi t = (if p.1 then -(decimalValue p.2 : Int) else (decimalValue p.2 : Int), true) := by
  unfold Atoi
  have hloop : parseUintLoop p.2 0 = UintResult.ok (decimalValue p.2) :=
    parseUintLoop_digits p.2 hd 0 (by unfold decimalValue at hr; omega)
  simp only [hp, hne, if_false, hloop]
  cases p.1 <;> simp <;> omega

theorem splitSign_of_decimal (t : String) (n : Int) (h : IsDecimalInt t n) :
    ∃ p : Bool × List Char, splitSign t.data = p ∧ (∀ c ∈ p.2, isDigit c = true) ∧ p.2 ≠ [] ∧
      n = (if p.1 then -(decimalValue p.2 : Int) else (decimalValue p.2 : Int)) := by
  obtain ⟨ds, hne, hd, h⟩ := h
  rcases h with ⟨ht, hn⟩ | ⟨ht, hn⟩ | ⟨ht, hn⟩
  · cases ds with
    | nil => exact absurd rfl hne
    | cons c cs =>
      refine ⟨(false, c :: cs), ?_, hd, hne, by simpa using hn⟩
      rw [ht]; exact splitSign_digit c cs (hd c (List.mem_cons_self _ _))
  · exact ⟨(false, ds), by rw [ht]; rfl, hd, hne, by simpa using hn⟩
  · exact ⟨(true, ds), by rw [ht]; rfl, hd, hne, by simpa using hn⟩

theorem parse_decimal (s : String) (d n : Int) (h : IsDecimalInt (TrimSpace s) n)
    (h1 : -153722867 ≤ n) (h2 : n ≤ 153722867) : parseDurationInput s d = n * Minute := by
  obtain ⟨p, hp, hd, hne, hn⟩ := splitSign_of_decimal _ n h
  have hnz : TrimSpace s ≠ "" := by
    intro e
    rw [e] at hp
    have : p = (false, []) := by rw [← hp]; rfl
    exact hne (by rw [this])
  have hr : decimalValue p.2 < 9223372036854775808 := by
    cases hb : p.1 <;> simp [hb] at hn <;> omega
  have hA := Atoi_digits p _ hp hd hne hr
  rw [← hn] at hA
  unfold parseDurationInput
  simp only [hnz, if_false]
  rcases ParseDuration_digits p _ hp hd hne with hP | ⟨hP, h0⟩
  · rw [hP, hA]
    exact minutes_exact n h1 h2
  · rw [hP]
    have : n = 0 := by
      cases hb : p.1 <;> simp [hb, h0] at hn <;> exact hn
    simp [this]

theorem unitMap_facts (u : List Char) (unit : Nat) (h : unitMap u = some unit) :
    (∀ c ∈ u, isNumChar c = false) ∧ u ≠ [] ∧ 0 < unit := by
  unfold unitMap at h
  split_ifs at h with h1 h2 h3 h4 h5 h6 h7 h8 <;> cases h <;> subst_vars <;> decide

theorem fractionPart_unit (u : List Char) (h : ∀ c ∈ u, isNumChar c = false) :
    fractionPart u = (0, 0, u, false) := by
  unfold fractionPart
  split
  · rename_i r
    have := h '.' (List.mem_cons_self _ _)
    exact absurd this (by decide)
  · rfl

theorem parseLoop_single (ds u : List Char) (unit fuel : Nat) (hne : ds ≠ [])
    (hd : ∀ c ∈ ds, isDigit c = true) (hu : unitMap u = some unit)
    (hv : decimalValue ds * unit ≤ 9223372036854775807) :
    parseLoop (fuel + 1) (ds ++ u) 0 = some (decimalValue ds * unit) := by
  obtain ⟨hnum, hune, hpos⟩ := unitMap_facts u unit hu
  have hle : decimalValue ds ≤ 9223372036854775808 := by
    have : decimalValue ds * 1 ≤ decimalValue ds * unit := Nat.mul_le_mul_left _ hpos
    omega
  have hrest : ∀ c cs, u = c :: cs → isDigit c = false := by
    intro c cs e
    have := hnum c (by rw [e]; exact List.mem_cons_self _ _)
    simp only [isNumChar, Bool.or_eq_false_iff] at this
    exact this.2
  have hL := leadingInt_digits ds u hd hrest 0 hle
  have hF := fractionPart_unit u hnum
  have hT : u.takeWhile (fun x => ! isNumChar x) = u := by
    rw [List.takeWhile_eq_self_iff]
    intro c hc; simp [hnum c hc]
  have hD : u.dropWhile (fun x => ! isNumChar x) = [] := by
    rw [List.dropWhile_eq_nil_iff]
    intro c hc; simp [hnum c hc]
  have hdiv : ¬ 9223372036854775808 / unit < decimalValue ds := by
    rw [not_lt, Nat.le_div_iff_mul_le hpos]
    omega
  have hlen : (ds ++ u).length ≠ u.length := by
    have : 0 < ds.length := List.length_pos.mpr hne
    simp only [List.length_append]; omega
  cases ds with
  | nil => exact absurd rfl hne
  | cons c cs =>
    have hc : isNumChar c = true := by simp [isNumChar, hd c (List.mem_cons_self _ _)]
    have hmod : (decimalValue (c :: cs) * unit) % 18446744073709551616
        = decimalValue (c :: cs) * unit := Nat.mod_eq_of_lt (by omega)
    have hbig : ¬ 9223372036854775808 < decimalValue (c :: cs) * unit := by omega
    simp only [List.cons_append] at hL hlen ⊢
    simp only [parseLoop, parseTerm, hc, not_true_eq_false, if_false]
    rw [show (leadingInt (c :: (cs ++ u)) 0) = some (decimalValue (c :: cs), u) from hL]
    simp only [hF, hT, hD, hune, hu, hdiv, if_false, lt_irrefl, false_and, Nat.zero_add,
      hmod, hbig, parseLoop]
    rw [decide_eq_true hlen]
    simp [parseLoop]

theorem ParseDuration_unit (t : String) (v : Int) (h : IsUnitLiteral t v)
    (hv : v ≤ maxInt64) : ParseDuration t = some v := by
  obtain ⟨ds, u, unit, hne, hd, hu, ht, hval⟩ := h
  obtain ⟨hnum, hune, hpos⟩ := unitMap_facts u unit hu
  have hv2 : decimalValue ds * unit ≤ 9223372036854775807 := by
    simp only [maxInt64] at hv; omega
  cases hds : ds with
  | nil => exact absurd hds hne
  | cons c cs =>
    have hc : isDigit c = true := hd c (by rw [hds]; exact List.mem_cons_self _ _)
    have hsplit : splitSign t.data = (false, ds ++ u) := by
      rw [ht, hds]; exact splitSign_digit c _ hc
    have hloop := parseLoop_single ds u unit (cs ++ u).length hne hd hu hv2
    have hlen : (ds ++ u).length = (cs ++ u).length + 1 := by rw [hds]; rfl
    have h0 : ds ++ u ≠ ['0'] := by
      intro e
      have := congrArg List.length e
      have h1 : 0 < ds.length := List.length_pos.mpr hne
      have h2 : 0 < u.length := List.length_pos.mpr hune
      simp only [List.length_append, List.length_singleton] at this
      omega
    have hnil : ds ++ u ≠ [] := by simp [hne]
    unfold ParseDuration
    simp only [hsplit, h0, hnil, if_false, hlen, hloop]
    have : ¬ 9223372036854775807 < decimalValue ds * unit := by omega
    simp [this, hval]

/-- Claim C10 as stated fails on large numbers: "153722868" is a plain decimal
integer, and the product with `time.Minute` wraps around to a negative
duration; "9223372036854775808" does not fit an `int` and gives the default. -/
theorem parse_large_integer :
    IsDecimalInt (TrimSpace "153722868") 153722868 ∧
    parseDurationInput "153722868" 25 = -9223371993709551616 ∧
    parseDurationInput "153722868" 25 ≠ 153722868 * Minute ∧
    IsDecimalInt (TrimSpace "9223372036854775808") 9223372036854775808 ∧
    parseDurationInput "9223372036854775808" 25 = 25 * Minute := by
  refine ⟨⟨"153722868".data, by decide, by decide, Or.inl ⟨by decide, by decide⟩⟩,
    by decide, by decide,
    ⟨"9223372036854775808".data, by decide, by decide, Or.inl ⟨by decide, by decide⟩⟩,
    by decide⟩

/-- Claim C10, amended.  For every text and default, `parseDurationInput`
returns: the default in minutes when the trimmed text is empty; the value of
`time.ParseDuration` when that succeeds, which for digits followed by a unit
is the number times the unit (when it fits 64 bits); `n` minutes for a plain
decimal integer `n` between -153722867 and 153722867; the default in minutes
for any other text.  The default in minutes is exact in the same range.  The
four examples of the specification hold. -/
theorem parseDurationInput_spec (s : String) (d : Int) :
    (TrimSpace s = "" → parseDurationInput s d = minutes d) ∧
    (∀ v : Int, TrimSpace s ≠ "" → ParseDuration (TrimSpace s) = some v →
      parseDurationInput s d = v) ∧
    (∀ v : Int, IsUnitLiteral (TrimSpace s) v → v ≤ maxInt64 → parseDurationInput s d = v) ∧
    (∀ n : Int, IsDecimalInt (TrimSpace s) n → -153722867 ≤ n → n ≤ 153722867 →
      parseDurationInput s d = n * Minute) ∧
    (TrimSpace s ≠ "" → ParseDuration (TrimSpace s) = none →
      (Atoi (TrimSpace s)).2 = false → parseDurationInput s d = minutes d) ∧
    (-153722867 ≤ d → d ≤ 153722867 → minutes d = d * Minute) ∧
    parseDurationInput "" 25 = 25 * Minute ∧
    parseDurationInput "abc" 5 = 5 * Minute ∧
    parseDurationInput "90s" d = 90 * Second ∧
    parseDurationInput "10" d = 10 * Minute := by
  have hsome : ∀ v : Int, TrimSpace s ≠ "" → ParseDuration (TrimSpace s) = some v →
      parseDurationInput s d = v := by
    intro v hne hP
    simp [parseDurationInput, hne, hP]
  refine ⟨?_, hsome, ?_, fun n h h1 h2 => parse_decimal s d n h h1 h2, ?_,
    minutes_exact d, by decide, by decide, rfl, rfl⟩
  · intro h
    simp [parseDurationInput, h]
  · intro v h hv
    have hne : TrimSpace s ≠ "" := by
      obtain ⟨ds, u, unit, hds, _, _, ht, _⟩ := h
      intro e
      rw [e] at ht
      have : ds = [] := (List.append_eq_nil.mp ht.symm).1
      exact hds this
    exact hsome v hne (ParseDuration_unit _ v h hv)
  · intro hne hP hA
    have : Atoi (TrimSpace s) = ((Atoi (TrimSpace s)).1, false) := by
      rw [← hA]
    simp only [parseDurationInput, hne, if_false, hP]
    rw [this]

/-- Claim C10, amended, at sample inputs: " 90s " and "10". -/
theorem parseDurationInput_spec_witness :
    IsUnitLiteral (TrimSpace " 90s ") (90 * Second) ∧
    parseDurationInput " 90s " 25 = 90 * Second ∧
    IsDecimalInt (TrimSpace "10") 10 ∧
    parseDurationInput "10" 25 = 10 * Minute :=
  have h1 : IsUnitLiteral (TrimSpace " 90s ") (90 * Second) :=
    ⟨['9', '0'], ['s'], 1000000000, by decide, by decide, by decide, by decide, by decide⟩
  have h2 : IsDecimalInt (TrimSpace "10") 10 :=
    ⟨['1', '0'], by decide, by decide, Or.inl ⟨by decide, by decide⟩⟩
  ⟨h1, (parseDurationInput_spec " 90s " 25).2.2.1 _ h1 (by decide),
   h2, (parseDurationInput_spec "10" 25).2.2.2.1 10 h2 (by decide) (by decide)⟩

end Pomodoro
